import Mathlib

/-!
Verification of the KerasNLP / KerasHub repository against its
natural-language specification.

The developments below shallowly embed the numerical kernels of the
repository:

* `makeLogBucketPosition`, `getLogPos`, `clipByValue`, `c2pIndex`,
  `p2cIndex` embed the DeBERTa disentangled self-attention relative
  position bucketing
  (`keras_nlp/models/deberta/disentangled_self_attention.py`);
* the einsum / gather score computation of the same file is embedded by
  `einsumAcbf`, `scaleFactor`, `c2pAttnScores`, `p2cAttnScores`,
  `disentangledAttentionScore` and `attentionScoresPreSoftmax`;
* `cIoULossCall` embeds `CIoULoss.call`
  (`keras_hub/src/models/yolo_v8/ciou_loss.py`);
* `rotaryCall` and its pieces embed `RotaryEmbedding.call`
  (`keras_nlp/models/gpt_neo_x/rotary_embedding.py`);
* `greedySample` embeds `GreedySampler.sample`
  (`keras_nlp/samplers/greedy_sampler.py`).

Machine integers are modelled by `Int` / `Nat`; the float64 tensor
arithmetic of TensorFlow is modelled by exact real arithmetic over `ℝ`
(probabilities in the sampler, whose exact values never matter, are
modelled by `ℚ` so that the sampler stays executable).
-/

/-- Inner helper `_get_log_pos` of `_make_log_bucket_position`:
`ceil((log(abs_pos / mid) * (mid - 1)) / log((max_position_embeddings - 1) / mid)) + mid`.
TensorFlow true-divides the int64 tensors to float64; this is modelled by
exact real division.  The final `tf.cast` to int64 of the ceiled float is
modelled by `Int.ceil`. -/
noncomputable def getLogPos (maxPos : ℕ) (absPos mid : ℤ) : ℤ :=
  ⌈Real.log ((absPos : ℝ) / (mid : ℝ)) * ((mid : ℝ) - 1) /
      Real.log (((maxPos : ℝ) - 1) / (mid : ℝ))⌉ + mid

/-- Embedding of `DisentangledSelfAttention._make_log_bucket_position`.
`mid = bucket_size // 2`; positions strictly inside `(-mid, mid)` get
`abs_pos = mid - 1` (so the final select keeps `rel_pos` itself), other
positions get `abs_pos = |rel_pos|`; positions with `abs_pos <= mid` keep
`rel_pos`, the rest get the log bucket times the sign. -/
noncomputable def makeLogBucketPosition (bucketSize maxPos : ℕ) (relPos : ℤ) : ℤ :=
  let mid : ℤ := ((bucketSize / 2 : ℕ) : ℤ)
  let absPos : ℤ := if relPos < mid ∧ -mid < relPos then mid - 1 else |relPos|
  if absPos ≤ mid then relPos else getLogPos maxPos absPos mid * Int.sign relPos

/-- Embedding of `tf.clip_by_value`: first `minimum` with the upper bound,
then `maximum` with the lower bound. -/
def clipByValue (x lo hi : ℤ) : ℤ :=
  max (min x hi) lo

/-- The c2p gather index built in `_compute_disentangled_attention`:
`clip_by_value(rel_pos + rel_attn_span, 0, rel_attn_span * 2 - 1)` where
`rel_pos = bucket(i - j)` and `rel_attn_span = bucket_size`. -/
noncomputable def c2pIndex (bucketSize maxPos : ℕ) (i j : ℕ) : ℤ :=
  clipByValue (makeLogBucketPosition bucketSize maxPos ((i : ℤ) - (j : ℤ)) + bucketSize)
    0 (2 * (bucketSize : ℤ) - 1)

/-- The p2c gather index built in `_compute_disentangled_attention`:
`clip_by_value(-rel_pos + rel_attn_span, 0, rel_attn_span * 2 - 1)`. -/
noncomputable def p2cIndex (bucketSize maxPos : ℕ) (i j : ℕ) : ℤ :=
  clipByValue (-makeLogBucketPosition bucketSize maxPos ((i : ℤ) - (j : ℤ)) + bucketSize)
    0 (2 * (bucketSize : ℤ) - 1)

/-- The log-bucket mapping exactly as worded by the specification: for
positions beyond the linear range the bucket is
`sign(r) * (bucket_size/2 + ceil((bucket_size/2 - 1) * log(|r| / (bucket_size/2)) / log((max_position_embeddings - 1) / (bucket_size/2))))`,
with `bucket_size/2` the halved bucket size used throughout, to be compared
against the bucket computed from the source. -/
noncomputable def specLogBucket (bucketSize maxPos : ℕ) (r : ℤ) : ℤ :=
  Int.sign r * (((bucketSize / 2 : ℕ) : ℤ) +
    ⌈(((bucketSize / 2 : ℕ) : ℝ) - 1) *
        Real.log ((|r| : ℤ) / ((bucketSize / 2 : ℕ) : ℝ)) /
      Real.log (((maxPos : ℝ) - 1) / ((bucketSize / 2 : ℕ) : ℝ))⌉)

/-- A rank-4 tensor of reals, indexed as in the DeBERTa layer:
`(batch, seq, head, feature)` for `query`/`key`/`value` projections, or
`(batch, head, seq, seq-or-bucket)` for attention scores. -/
def Tensor4 : Type :=
  ℕ → ℕ → ℕ → ℕ → ℝ

/-- Embedding of `tf.einsum("abcd,afcd->acbf", x, y)` where the contracted
axis `d` has size `D`:
`out[a, c, b, f] = sum_d x[a, b, c, d] * y[a, f, c, d]`.  This pattern is
used for the content-content, c2p and p2c raw scores. -/
noncomputable def einsumAcbf (D : ℕ) (x y : Tensor4) : Tensor4 :=
  fun a c b f => ∑ d ∈ Finset.range D, x a b c d * y a f c d

/-- The scale factor of `DisentangledSelfAttention.__init__`:
`1 / sqrt(num_type_attn * attn_head_size)` with `num_type_attn = 3` and
`attn_head_size = hidden_dim // num_heads`. -/
noncomputable def scaleFactor (numHeads hiddenDim : ℕ) : ℝ :=
  1 / Real.sqrt ((3 * (hiddenDim / numHeads) : ℕ) : ℝ)

/-- The c2p component of `_compute_disentangled_attention`: the raw
`einsum("abcd,afcd->acbf", query, pos_key)` scores gathered along the last
axis at `c2p_pos` (`batch_dims=3`), multiplied by the scale factor. -/
noncomputable def c2pAttnScores (numHeads hiddenDim bucketSize maxPos D : ℕ)
    (query posKey : Tensor4) : Tensor4 :=
  fun a c i j =>
    einsumAcbf D query posKey a c i (c2pIndex bucketSize maxPos i j).toNat *
      scaleFactor numHeads hiddenDim

/-- The p2c component of `_compute_disentangled_attention`: the raw
`einsum("abcd,afcd->acbf", key, pos_query)` scores gathered at `p2c_pos`,
transposed over the last two axes, multiplied by the scale factor. -/
noncomputable def p2cAttnScores (numHeads hiddenDim bucketSize maxPos D : ℕ)
    (key posQuery : Tensor4) : Tensor4 :=
  fun a c i j =>
    einsumAcbf D key posQuery a c j (p2cIndex bucketSize maxPos j i).toNat *
      scaleFactor numHeads hiddenDim

/-- The `score` value returned by `_compute_disentangled_attention`: the sum
of the scaled c2p and p2c components. -/
noncomputable def disentangledAttentionScore (numHeads hiddenDim bucketSize maxPos D : ℕ)
    (query key posKey posQuery : Tensor4) : Tensor4 :=
  fun a c i j =>
    c2pAttnScores numHeads hiddenDim bucketSize maxPos D query posKey a c i j +
      p2cAttnScores numHeads hiddenDim bucketSize maxPos D key posQuery a c i j

/-- The pre-softmax attention scores built by `_compute_attention`: the
content-content `einsum("abcd,afcd->acbf", key, query)` scores times the
scale factor, plus the disentangled relative-position scores. -/
noncomputable def attentionScoresPreSoftmax (numHeads hiddenDim bucketSize maxPos D : ℕ)
    (query key posKey posQuery : Tensor4) : Tensor4 :=
  fun a c b f =>
    einsumAcbf D key query a c b f * scaleFactor numHeads hiddenDim +
      disentangledAttentionScore numHeads hiddenDim bucketSize maxPos D
        query key posKey posQuery a c b f

/-- Python `shape[-1]` on a non-empty shape list. -/
def dimLast (shape : List ℕ) : ℕ :=
  shape.getLastD 0

/-- Python `shape[-2]` on a shape list of rank at least two. -/
def dimPenult (shape : List ℕ) : ℕ :=
  shape.getD (shape.length - 2) 0

/-- Embedding of `CIoULoss.call`.  Tensors are represented by their shape
lists; `computeCiou` stands for `compute_ciou` from
`keras_hub.src.bounding_box.iou`.  Modelled from the spec: that module is
not part of the sources at hand, and the specification only says a CIoU
value is computed from the two inputs, so `computeCiou` is an arbitrary
real-valued parameter.  The three shape checks and the `1 - ciou` result
are translated from the source of `call`. -/
def cIoULossCall (computeCiou : List ℕ → List ℕ → ℝ)
    (yTrueShape yPredShape : List ℕ) : Except String ℝ :=
  if dimLast yPredShape ≠ 4 then
    Except.error "CIoULoss expects y_pred.shape[-1] to be 4"
  else if dimLast yTrueShape ≠ 4 then
    Except.error "CIoULoss expects y_true.shape[-1] to be 4"
  else if dimPenult yTrueShape ≠ dimPenult yPredShape then
    Except.error "CIoULoss expects equal numbers of boxes"
  else
    Except.ok (1 - computeCiou yTrueShape yPredShape)

/-- A tensor for the rotary-embedding layer: the size of the last (feature)
axis together with the entries, indexed `(batch, seq, head, feature)`. -/
structure RTensor where
  featDim : ℕ
  data : Tensor4

/-- Element `j` of `inverse_freq` in `_compute_cos_sin_embedding`:
`1 / max_wavelength ** (2 j / rotary_ndims)` (the `tf.range` with step 2
makes entry `j` equal to `2 j`). -/
noncomputable def inverseFreq (rotaryNdims maxWavelength : ℕ) (j : ℕ) : ℝ :=
  1 / (maxWavelength : ℝ) ^ ((2 * j : ℕ) / (rotaryNdims : ℝ))

/-- The `embedding = concat((freqs, freqs), axis=-1)` tensor of
`_compute_cos_sin_embedding`, at sequence position `s` and feature `f`;
`freqs[s, j] = s * inverse_freq[j]` and the two copies each have width
`rotary_ndims / 2`. -/
noncomputable def cosSinAngle (rotaryNdims maxWavelength : ℕ) (s f : ℕ) : ℝ :=
  if f < rotaryNdims / 2 then
    (s : ℝ) * inverseFreq rotaryNdims maxWavelength f
  else
    (s : ℝ) * inverseFreq rotaryNdims maxWavelength (f - rotaryNdims / 2)

/-- Embedding of `_apply_rotary_pos_emb`: split the rotary slice into two
halves `x1, x2`, rotate to `concat(-x2, x1)`, and combine with the cosine
and sine embeddings (broadcast over batch and head). -/
noncomputable def applyRotaryPosEmb (rotaryNdims : ℕ) (t : Tensor4)
    (cosEmb sinEmb : ℕ → ℕ → ℝ) : Tensor4 :=
  fun b s h f =>
    t b s h f * cosEmb s f +
      (if f < rotaryNdims / 2 then -t b s h (f + rotaryNdims / 2)
       else t b s h (f - rotaryNdims / 2)) * sinEmb s f

/-- Embedding of `RotaryEmbedding.call`: the first `rotary_ndims` features
of `query` and `key` are rotated with the shared cos/sin embedding and the
remaining features are concatenated back unchanged. -/
noncomputable def rotaryCall (rotaryNdims maxWavelength : ℕ)
    (query key : RTensor) : RTensor × RTensor :=
  let cosEmb := fun s f => Real.cos (cosSinAngle rotaryNdims maxWavelength s f)
  let sinEmb := fun s f => Real.sin (cosSinAngle rotaryNdims maxWavelength s f)
  let queryEmb := applyRotaryPosEmb rotaryNdims query.data cosEmb sinEmb
  let keyEmb := applyRotaryPosEmb rotaryNdims key.data cosEmb sinEmb
  (⟨rotaryNdims + (query.featDim - rotaryNdims),
    fun b s h f => if f < rotaryNdims then queryEmb b s h f else query.data b s h f⟩,
   ⟨rotaryNdims + (key.featDim - rotaryNdims),
    fun b s h f => if f < rotaryNdims then keyEmb b s h f else key.data b s h f⟩)

/-- Embedding of `tf.argmax(_, axis=-1)` over a vocabulary of size `V`:
index of the largest value, ties resolved to the smallest index. -/
def argmaxAxis (V : ℕ) (f : ℕ → ℚ) : ℕ :=
  (List.range V).foldl (fun best v => if f best < f v then v else best) 0

/-- The loop state of `GreedySampler.sample`: the write cursor `length`,
the prompt tokens and the mask, both indexed `(batch row, position)`.
Positions are integers because `length` starts at
`max_length - num_steps`. -/
structure SamplerState where
  length : ℤ
  prompt : ℕ → ℤ → ℤ
  mask : ℕ → ℤ → Bool

/-- One iteration of the `tf.while_loop` body `one_step` of
`GreedySampler.sample`: take the distribution at column `length - 1`,
argmax it, keep the original token where the mask is set at column
`length`, then scatter the token and `True` into column `length` for every
batch row, and advance `length`. -/
def greedyOneStep (batchSize V : ℕ)
    (tokenProbabilityFn : (ℕ → ℤ → ℤ) → (ℕ → ℤ → Bool) → ℕ → ℤ → ℕ → ℚ)
    (st : SamplerState) : SamplerState :=
  let probs := tokenProbabilityFn st.prompt st.mask
  let nextToken : ℕ → ℤ :=
    fun b =>
      if st.mask b st.length then st.prompt b st.length
      else (argmaxAxis V (fun v => probs b (st.length - 1) v) : ℤ)
  { length := st.length + 1
    prompt := fun b p =>
      if b < batchSize ∧ p = st.length then nextToken b else st.prompt b p
    mask := fun b p =>
      if b < batchSize ∧ p = st.length then true else st.mask b p }

/-- Embedding of `GreedySampler.sample`: starting from
`length = max_length - num_steps`, run `one_step` until
`length >= max_length` (each step increments `length` by one, so the loop
runs `max_length - length` times), and return the prompt. -/
def greedySample (batchSize V : ℕ)
    (tokenProbabilityFn : (ℕ → ℤ → ℤ) → (ℕ → ℤ → Bool) → ℕ → ℤ → ℕ → ℚ)
    (prompt : ℕ → ℤ → ℤ) (mask : ℕ → ℤ → Bool)
    (maxLength numSteps : ℤ) : ℕ → ℤ → ℤ :=
  let length := maxLength - numSteps
  ((greedyOneStep batchSize V tokenProbabilityFn)^[(maxLength - length).toNat]
      { length := length, prompt := prompt, mask := mask }).prompt

theorem makeLogBucketPosition_of_abs_le {bucketSize maxPos : ℕ} {r : ℤ}
    (h : |r| ≤ ((bucketSize / 2 : ℕ) : ℤ)) :
    makeLogBucketPosition bucketSize maxPos r = r := by
  simp only [makeLogBucketPosition]
  by_cases hc : r < ((bucketSize / 2 : ℕ) : ℤ) ∧ -((bucketSize / 2 : ℕ) : ℤ) < r
  · rw [if_pos hc, if_pos (by omega)]
  · rw [if_neg hc, if_pos h]

theorem makeLogBucketPosition_of_mid_lt {bucketSize maxPos : ℕ} {r : ℤ}
    (h : ((bucketSize / 2 : ℕ) : ℤ) < |r|) :
    makeLogBucketPosition bucketSize maxPos r =
      getLogPos maxPos |r| ((bucketSize / 2 : ℕ) : ℤ) * Int.sign r := by
  simp only [makeLogBucketPosition]
  have hc : ¬(r < ((bucketSize / 2 : ℕ) : ℤ) ∧ -((bucketSize / 2 : ℕ) : ℤ) < r) :=
    fun hcc => absurd (abs_lt.mpr ⟨hcc.2, hcc.1⟩) (not_lt.mpr (le_of_lt h))
  rw [if_neg hc, if_neg (not_le.mpr h)]

theorem getLogPos_ge_mid {maxPos : ℕ} {a mid : ℤ} (hmid : 1 ≤ mid)
    (hM : mid < (maxPos : ℤ) - 1) (ha : mid < a) :
    mid ≤ getLogPos maxPos a mid := by
  have hmid1R : (1 : ℝ) ≤ (mid : ℝ) := by exact_mod_cast hmid
  have hmidR : (0 : ℝ) < (mid : ℝ) := lt_of_lt_of_le zero_lt_one hmid1R
  have hMR : (mid : ℝ) < (maxPos : ℝ) - 1 := by exact_mod_cast hM
  have haR : (mid : ℝ) ≤ (a : ℝ) := by exact_mod_cast ha.le
  have hD : 0 < Real.log (((maxPos : ℝ) - 1) / (mid : ℝ)) :=
    Real.log_pos ((one_lt_div hmidR).mpr hMR)
  have hN : 0 ≤ Real.log ((a : ℝ) / (mid : ℝ)) * ((mid : ℝ) - 1) :=
    mul_nonneg (Real.log_nonneg ((one_le_div hmidR).mpr haR)) (by linarith)
  have hceil : 0 ≤ ⌈Real.log ((a : ℝ) / (mid : ℝ)) * ((mid : ℝ) - 1) /
      Real.log (((maxPos : ℝ) - 1) / (mid : ℝ))⌉ :=
    Int.ceil_nonneg (div_nonneg hN hD.le)
  unfold getLogPos
  omega

theorem getLogPos_mono {maxPos : ℕ} {a b mid : ℤ} (hmid : 1 ≤ mid)
    (hM : mid < (maxPos : ℤ) - 1) (ha : mid < a) (hab : a ≤ b) :
    getLogPos maxPos a mid ≤ getLogPos maxPos b mid := by
  have hmid1R : (1 : ℝ) ≤ (mid : ℝ) := by exact_mod_cast hmid
  have hmidR : (0 : ℝ) < (mid : ℝ) := lt_of_lt_of_le zero_lt_one hmid1R
  have hMR : (mid : ℝ) < (maxPos : ℝ) - 1 := by exact_mod_cast hM
  have habR : (a : ℝ) ≤ (b : ℝ) := by exact_mod_cast hab
  have haposR : (0 : ℝ) < (a : ℝ) := by exact_mod_cast (by omega : (0 : ℤ) < a)
  have hD : 0 < Real.log (((maxPos : ℝ) - 1) / (mid : ℝ)) :=
    Real.log_pos ((one_lt_div hmidR).mpr hMR)
  have hlog : Real.log ((a : ℝ) / (mid : ℝ)) ≤ Real.log ((b : ℝ) / (mid : ℝ)) :=
    Real.log_le_log (div_pos haposR hmidR)
      ((div_le_div_iff_of_pos_right hmidR).mpr habR)
  have hnum : Real.log ((a : ℝ) / (mid : ℝ)) * ((mid : ℝ) - 1) ≤
      Real.log ((b : ℝ) / (mid : ℝ)) * ((mid : ℝ) - 1) :=
    mul_le_mul_of_nonneg_right hlog (by linarith)
  have hdiv := (div_le_div_iff_of_pos_right hD).mpr hnum
  unfold getLogPos
  exact add_le_add_right (Int.ceil_le_ceil hdiv) mid

/-- C2: for every integer relative position `r` with
`|r| < bucket_size/2`, the bucketing function keeps the linear value:
`bucket(r) = r`. -/
theorem c2_bucket_identity_small (bucketSize maxPos : ℕ) (r : ℤ)
    (h : |r| < ((bucketSize / 2 : ℕ) : ℤ)) :
    makeLogBucketPosition bucketSize maxPos r = r :=
  makeLogBucketPosition_of_abs_le h.le

/-- Witness for C2 at bucket_size 4, max_position_embeddings 8, r = 1. -/
theorem c2_bucket_identity_small_witness :
    |(1 : ℤ)| < ((4 / 2 : ℕ) : ℤ) ∧ makeLogBucketPosition 4 8 1 = 1 :=
  ⟨by norm_num, c2_bucket_identity_small 4 8 1 (by norm_num)⟩

/-- C3: the bucketing function is symmetric under sign negation:
`bucket(-r) = -bucket(r)` for every integer relative position. -/
theorem c3_bucket_sign_symmetry (bucketSize maxPos : ℕ) (r : ℤ) :
    makeLogBucketPosition bucketSize maxPos (-r) =
      -makeLogBucketPosition bucketSize maxPos r := by
  rcases le_or_lt |r| ((bucketSize / 2 : ℕ) : ℤ) with h | h
  · rw [makeLogBucketPosition_of_abs_le (by rwa [abs_neg]),
      makeLogBucketPosition_of_abs_le h]
  · rw [makeLogBucketPosition_of_mid_lt (by rwa [abs_neg]),
      makeLogBucketPosition_of_mid_lt h, abs_neg, Int.sign_neg, mul_neg]

/-- C4: the bucketing function is monotone: whenever `r1 <= r2` and both
have absolute value at most `max_position_embeddings - 1`,
`bucket(r1) <= bucket(r2)`. -/
theorem c4_bucket_monotone (bucketSize maxPos : ℕ) (hb : 2 ≤ bucketSize)
    (r1 r2 : ℤ) (h1 : |r1| ≤ (maxPos : ℤ) - 1) (h2 : |r2| ≤ (maxPos : ℤ) - 1)
    (h12 : r1 ≤ r2) :
    makeLogBucketPosition bucketSize maxPos r1 ≤
      makeLogBucketPosition bucketSize maxPos r2 := by
  have hmid : 1 ≤ ((bucketSize / 2 : ℕ) : ℤ) := by
    have : 1 ≤ bucketSize / 2 := by omega
    exact_mod_cast this
  rcases le_or_lt |r1| ((bucketSize / 2 : ℕ) : ℤ) with ha1 | ha1 <;>
    rcases le_or_lt |r2| ((bucketSize / 2 : ℕ) : ℤ) with ha2 | ha2
  · rw [makeLogBucketPosition_of_abs_le ha1, makeLogBucketPosition_of_abs_le ha2]
    exact h12
  · have hM : ((bucketSize / 2 : ℕ) : ℤ) < (maxPos : ℤ) - 1 := lt_of_lt_of_le ha2 h2
    rw [makeLogBucketPosition_of_abs_le ha1, makeLogBucketPosition_of_mid_lt ha2]
    have habs1 := abs_le.mp ha1
    have hr2 : ((bucketSize / 2 : ℕ) : ℤ) < r2 := by
      rcases abs_cases r2 with ⟨he, _⟩ | ⟨he, _⟩ <;> omega
    rw [Int.sign_eq_one_iff_pos.mpr (by omega), mul_one]
    have := getLogPos_ge_mid hmid hM ha2
    omega
  · have hM : ((bucketSize / 2 : ℕ) : ℤ) < (maxPos : ℤ) - 1 := lt_of_lt_of_le ha1 h1
    rw [makeLogBucketPosition_of_mid_lt ha1, makeLogBucketPosition_of_abs_le ha2]
    have habs2 := abs_le.mp ha2
    have hr1 : r1 < -((bucketSize / 2 : ℕ) : ℤ) := by
      rcases abs_cases r1 with ⟨he, _⟩ | ⟨he, _⟩ <;> omega
    rw [Int.sign_eq_neg_one_iff_neg.mpr (by omega), mul_neg_one]
    have := getLogPos_ge_mid hmid hM ha1
    omega
  · have hM1 : ((bucketSize / 2 : ℕ) : ℤ) < (maxPos : ℤ) - 1 := lt_of_lt_of_le ha1 h1
    have hM2 : ((bucketSize / 2 : ℕ) : ℤ) < (maxPos : ℤ) - 1 := lt_of_lt_of_le ha2 h2
    rw [makeLogBucketPosition_of_mid_lt ha1, makeLogBucketPosition_of_mid_lt ha2]
    rcases abs_cases r1 with ⟨he1, hs1⟩ | ⟨he1, hs1⟩ <;>
      rcases abs_cases r2 with ⟨he2, hs2⟩ | ⟨he2, hs2⟩
    · rw [Int.sign_eq_one_iff_pos.mpr (by omega),
        Int.sign_eq_one_iff_pos.mpr (by omega), mul_one, mul_one]
      exact getLogPos_mono hmid hM1 ha1 (by omega)
    · exfalso; omega
    · rw [Int.sign_eq_neg_one_iff_neg.mpr (by omega),
        Int.sign_eq_one_iff_pos.mpr (by omega), mul_neg_one, mul_one]
      have hg1 := getLogPos_ge_mid hmid hM1 ha1
      have hg2 := getLogPos_ge_mid hmid hM2 ha2
      omega
    · rw [Int.sign_eq_neg_one_iff_neg.mpr (by omega),
        Int.sign_eq_neg_one_iff_neg.mpr (by omega), mul_neg_one, mul_neg_one]
      have := getLogPos_mono hmid hM2 ha2 (show |r2| ≤ |r1| by omega)
      omega

/-- Witness for C4 at bucket_size 4, max_position_embeddings 8,
r1 = 0, r2 = 1. -/
theorem c4_bucket_monotone_witness :
    2 ≤ 4 ∧ |(0 : ℤ)| ≤ ((8 : ℕ) : ℤ) - 1 ∧ |(1 : ℤ)| ≤ ((8 : ℕ) : ℤ) - 1 ∧
      (0 : ℤ) ≤ 1 ∧ makeLogBucketPosition 4 8 0 ≤ makeLogBucketPosition 4 8 1 :=
  ⟨by norm_num, by norm_num, by norm_num, by norm_num,
    c4_bucket_monotone 4 8 (by norm_num) 0 1 (by norm_num) (by norm_num) (by norm_num)⟩

/-- C5: beyond the linear range (and within the position-embedding range)
the bucketing function equals the logarithmic formula of the
specification, preserving sign. -/
theorem c5_bucket_log_formula (bucketSize maxPos : ℕ) (r : ℤ)
    (h1 : ((bucketSize / 2 : ℕ) : ℤ) < |r|) (h2 : |r| ≤ (maxPos : ℤ) - 1) :
    makeLogBucketPosition bucketSize maxPos r = specLogBucket bucketSize maxPos r := by
  rw [makeLogBucketPosition_of_mid_lt h1]
  unfold specLogBucket getLogPos
  simp only [Int.cast_natCast]
  ring_nf

/-- Witness for C5 at bucket_size 4, max_position_embeddings 8, r = 3. -/
theorem c5_bucket_log_formula_witness :
    ((4 / 2 : ℕ) : ℤ) < |(3 : ℤ)| ∧ |(3 : ℤ)| ≤ ((8 : ℕ) : ℤ) - 1 ∧
      makeLogBucketPosition 4 8 3 = specLogBucket 4 8 3 :=
  ⟨by norm_num, by norm_num,
    c5_bucket_log_formula 4 8 3 (by norm_num) (by norm_num)⟩

/-- Counterexample to C1 as stated: at bucket_size 4 and
max_position_embeddings 8, the relative position 2 buckets to 2 and the
clipping before the gather leaves it at 2, which does not lie within
`[-bucket_size/2, bucket_size/2) = [-2, 2)`. -/
theorem c1_bucket_interval_counterexample :
    ¬ (-(((4 / 2 : ℕ)) : ℤ) ≤
          clipByValue (makeLogBucketPosition 4 8 2 + 4) 0 (2 * 4 - 1) - 4 ∧
        clipByValue (makeLogBucketPosition 4 8 2 + 4) 0 (2 * 4 - 1) - 4 <
          (((4 / 2 : ℕ)) : ℤ)) := by
  have hb : makeLogBucketPosition 4 8 2 = 2 :=
    makeLogBucketPosition_of_abs_le (by norm_num)
  rw [hb]
  norm_num [clipByValue]

/-- C1 amended: for every bucket_size >= 2 and
max_position_embeddings > bucket_size/2, the bucket id after the clipping
applied before the gather lies within `[-bucket_size, bucket_size)`. -/
theorem c1_clipped_bucket_range (bucketSize maxPos : ℕ) (hb : 2 ≤ bucketSize)
    (hM : bucketSize / 2 < maxPos) (r : ℤ) :
    -(bucketSize : ℤ) ≤
        clipByValue (makeLogBucketPosition bucketSize maxPos r + bucketSize) 0
          (2 * (bucketSize : ℤ) - 1) - bucketSize ∧
      clipByValue (makeLogBucketPosition bucketSize maxPos r + bucketSize) 0
          (2 * (bucketSize : ℤ) - 1) - bucketSize < (bucketSize : ℤ) := by
  have hbz : (2 : ℤ) ≤ (bucketSize : ℤ) := by exact_mod_cast hb
  unfold clipByValue
  omega

/-- Witness for the amended C1 at bucket_size 4,
max_position_embeddings 8, r = 5. -/
theorem c1_clipped_bucket_range_witness :
    2 ≤ 4 ∧ 4 / 2 < 8 ∧
      (-((4 : ℕ) : ℤ) ≤
          clipByValue (makeLogBucketPosition 4 8 5 + 4) 0 (2 * ((4 : ℕ) : ℤ) - 1) - 4 ∧
        clipByValue (makeLogBucketPosition 4 8 5 + 4) 0 (2 * ((4 : ℕ) : ℤ) - 1) - 4 <
          ((4 : ℕ) : ℤ)) :=
  ⟨by norm_num, by norm_num, c1_clipped_bucket_range 4 8 (by norm_num) (by norm_num) 5⟩

/-- C7: for every pair of sequence positions the c2p and p2c gather
indices lie within `[0, 2*bucket_size - 1]`, so the gathers along the
bucket axis of size `2*bucket_size` stay in bounds. -/
theorem c7_gather_index_bounds (bucketSize maxPos : ℕ) (hb : 1 ≤ bucketSize)
    (i j : ℕ) :
    (0 ≤ c2pIndex bucketSize maxPos i j ∧
        c2pIndex bucketSize maxPos i j ≤ 2 * (bucketSize : ℤ) - 1) ∧
      (0 ≤ p2cIndex bucketSize maxPos i j ∧
        p2cIndex bucketSize maxPos i j ≤ 2 * (bucketSize : ℤ) - 1) := by
  have hbz : (1 : ℤ) ≤ (bucketSize : ℤ) := by exact_mod_cast hb
  unfold c2pIndex p2cIndex clipByValue
  omega

/-- Witness for C7 at bucket_size 4, max_position_embeddings 8,
positions i = 0, j = 3. -/
theorem c7_gather_index_bounds_witness :
    1 ≤ 4 ∧
      ((0 ≤ c2pIndex 4 8 0 3 ∧ c2pIndex 4 8 0 3 ≤ 2 * ((4 : ℕ) : ℤ) - 1) ∧
        (0 ≤ p2cIndex 4 8 0 3 ∧ p2cIndex 4 8 0 3 ≤ 2 * ((4 : ℕ) : ℤ) - 1)) :=
  ⟨by norm_num, c7_gather_index_bounds 4 8 (by norm_num) 0 3⟩

/-- C6: in the pre-softmax disentangled attention scores, each of the
content-content, content-to-position and position-to-content raw einsum
components is multiplied by the same scale factor
`1/sqrt(3 * head_dim)` with `head_dim = hidden_dim // num_heads`, and the
three scaled components are summed. -/
theorem c6_attention_scale_factor (numHeads hiddenDim bucketSize maxPos D : ℕ)
    (query key posKey posQuery : Tensor4) (a c b f : ℕ) :
    attentionScoresPreSoftmax numHeads hiddenDim bucketSize maxPos D
        query key posKey posQuery a c b f =
      (1 / Real.sqrt ((3 * (hiddenDim / numHeads) : ℕ) : ℝ)) *
          einsumAcbf D key query a c b f +
        (1 / Real.sqrt ((3 * (hiddenDim / numHeads) : ℕ) : ℝ)) *
          einsumAcbf D query posKey a c b (c2pIndex bucketSize maxPos b f).toNat +
        (1 / Real.sqrt ((3 * (hiddenDim / numHeads) : ℕ) : ℝ)) *
          einsumAcbf D key posQuery a c f (p2cIndex bucketSize maxPos f b).toNat := by
  unfold attentionScoresPreSoftmax disentangledAttentionScore c2pAttnScores
    p2cAttnScores scaleFactor
  ring

/-- C8: on inputs of rank at least two, `CIoULoss.call` raises a value
error exactly when one of the three shape validation checks fails (last
dimension of `y_pred` not 4, last dimension of `y_true` not 4, or
mismatched second-to-last dimensions), and otherwise returns
`1 - compute_ciou(y_true, y_pred)`. -/
theorem c8_ciou_error_iff (computeCiou : List ℕ → List ℕ → ℝ)
    (yTrueShape yPredShape : List ℕ)
    (ht : 2 ≤ yTrueShape.length) (hp : 2 ≤ yPredShape.length) :
    ((∃ msg, cIoULossCall computeCiou yTrueShape yPredShape = Except.error msg) ↔
        ¬(dimLast yPredShape = 4 ∧ dimLast yTrueShape = 4 ∧
            dimPenult yTrueShape = dimPenult yPredShape)) ∧
      (dimLast yPredShape = 4 → dimLast yTrueShape = 4 →
        dimPenult yTrueShape = dimPenult yPredShape →
        cIoULossCall computeCiou yTrueShape yPredShape =
          Except.ok (1 - computeCiou yTrueShape yPredShape)) := by
  unfold cIoULossCall
  split_ifs with h1 h2 h3 <;> simp_all

/-- Witness for C8 at y_true shape [2, 4], y_pred shape [2, 4]. -/
theorem c8_ciou_error_iff_witness :
    2 ≤ ([2, 4] : List ℕ).length ∧
      (dimLast [2, 4] = 4 → dimLast [2, 4] = 4 →
        dimPenult [2, 4] = dimPenult [2, 4] →
        cIoULossCall (fun _ _ => (0 : ℝ)) [2, 4] [2, 4] =
          Except.ok (1 - (fun _ _ => (0 : ℝ)) [2, 4] [2, 4])) :=
  ⟨by norm_num,
    (c8_ciou_error_iff (fun _ _ => (0 : ℝ)) [2, 4] [2, 4]
        (by norm_num) (by norm_num)).2⟩

/-- C9: `RotaryEmbedding.call` keeps the shape of both inputs and leaves
the pass-through features (indices at or beyond `rotary_ndims`) of both
the query and the key unchanged. -/
theorem c9_rotary_passthrough (rotaryNdims maxWavelength : ℕ)
    (query key : RTensor)
    (hq : rotaryNdims ≤ query.featDim) (hk : rotaryNdims ≤ key.featDim) :
    ((rotaryCall rotaryNdims maxWavelength query key).1.featDim = query.featDim ∧
        (rotaryCall rotaryNdims maxWavelength query key).2.featDim = key.featDim) ∧
      (∀ b s h f, rotaryNdims ≤ f →
        (rotaryCall rotaryNdims maxWavelength query key).1.data b s h f =
          query.data b s h f) ∧
      (∀ b s h f, rotaryNdims ≤ f →
        (rotaryCall rotaryNdims maxWavelength query key).2.data b s h f =
          key.data b s h f) := by
  unfold rotaryCall
  refine ⟨⟨?_, ?_⟩, ?_, ?_⟩
  · simp only []
    omega
  · simp only []
    omega
  · intro b s h f hf
    simp only [if_neg (Nat.not_lt.mpr hf)]
  · intro b s h f hf
    simp only [if_neg (Nat.not_lt.mpr hf)]

/-- Witness for C9 with rotary_ndims 2 and feature dimension 4. -/
theorem c9_rotary_passthrough_witness :
    2 ≤ (⟨4, fun _ _ _ _ => (0 : ℝ)⟩ : RTensor).featDim ∧
      (rotaryCall 2 10000 ⟨4, fun _ _ _ _ => (0 : ℝ)⟩
            ⟨4, fun _ _ _ _ => (1 : ℝ)⟩).1.featDim =
        (⟨4, fun _ _ _ _ => (0 : ℝ)⟩ : RTensor).featDim :=
  ⟨by norm_num,
    (c9_rotary_passthrough 2 10000 ⟨4, fun _ _ _ _ => (0 : ℝ)⟩
        ⟨4, fun _ _ _ _ => (1 : ℝ)⟩ (by norm_num) (by norm_num)).1.1⟩

theorem greedy_iterate_prompt_invariant (batchSize V : ℕ)
    (tokenProbabilityFn : (ℕ → ℤ → ℤ) → (ℕ → ℤ → Bool) → ℕ → ℤ → ℕ → ℚ)
    (n : ℕ) :
    ∀ (st : SamplerState) (b : ℕ) (p : ℤ),
      (st.mask b p = true ∨ p < st.length) →
      (((greedyOneStep batchSize V tokenProbabilityFn)^[n]) st).prompt b p =
        st.prompt b p := by
  induction n with
  | zero => intro st b p _; rfl
  | succ n ih =>
    intro st b p hp
    rw [Function.iterate_succ_apply]
    have h1 : (greedyOneStep batchSize V tokenProbabilityFn st).prompt b p =
        st.prompt b p ∧
        ((greedyOneStep batchSize V tokenProbabilityFn st).mask b p = true ∨
          p < (greedyOneStep batchSize V tokenProbabilityFn st).length) := by
      unfold greedyOneStep
      simp only
      rcases hp with hm | hl
      · by_cases hw : b < batchSize ∧ p = st.length
        · obtain ⟨hb, hp2⟩ := hw
          subst hp2
          simp [hb, hm]
        · simp [hw, hm]
      · have hne : ¬(b < batchSize ∧ p = st.length) := fun hw => by omega
        simp only [if_neg hne]
        exact ⟨trivial, Or.inr (by omega)⟩
    rw [ih (greedyOneStep batchSize V tokenProbabilityFn st) b p h1.2, h1.1]

/-- C10: `GreedySampler.sample` preserves the prompt at every position
where the input mask is set, and never writes positions before
`max_length - num_steps`. -/
theorem c10_greedy_mask_preserved (batchSize V : ℕ)
    (tokenProbabilityFn : (ℕ → ℤ → ℤ) → (ℕ → ℤ → Bool) → ℕ → ℤ → ℕ → ℚ)
    (prompt : ℕ → ℤ → ℤ) (mask : ℕ → ℤ → Bool) (maxLength numSteps : ℤ)
    (b : ℕ) (p : ℤ)
    (h : mask b p = true ∨ p < maxLength - numSteps) :
    greedySample batchSize V tokenProbabilityFn prompt mask maxLength numSteps b p =
      prompt b p := by
  unfold greedySample
  exact greedy_iterate_prompt_invariant batchSize V tokenProbabilityFn _
    ⟨maxLength - numSteps, prompt, mask⟩ b p h

/-- Witness for C10: a mask that is set everywhere keeps every token, at
batch row 0 and position 0. -/
theorem c10_greedy_mask_preserved_witness :
    (fun _ _ => true : ℕ → ℤ → Bool) 0 0 = true ∧
      greedySample 1 2 (fun _ _ _ _ _ => (0 : ℚ)) (fun _ _ => 7)
          (fun _ _ => true) 3 2 0 0 = 7 :=
  ⟨rfl, c10_greedy_mask_preserved 1 2 (fun _ _ _ _ _ => (0 : ℚ)) (fun _ _ => 7)
      (fun _ _ => true) 3 2 0 0 (Or.inl rfl)⟩
